import Mathlib

/-!
# FileGeek — verification of the retrieval-and-orchestration core

Shallow embedding, in Lean 4, of the parts of the FileGeek backend that the
frozen claims are about:

* `Study` — the SM-2 spaced-repetition transition of
  `backend/routers/study.py` (`save_flashcard_progress`).
* `VectorStoreM` — the similarity ranking of
  `backend/services/vector_store.py` (`VectorStore._rank`).
* `MemoryServiceM` — the memory ranking and fallback of
  `backend/services/memory_service.py`.
* `LLMServiceM` — provider detection and the chat call of
  `backend/services/llm.py`.
* `EmbeddingsM` — the batching/retry loop of
  `backend/services/embeddings.py`.
* `ChatEngineM` — the agentic orchestration loop of
  `backend/services/chat_engine.py` (`ChatEngine.generate_response`).

Python floats are modelled as rationals (`ℚ`), machine integers as `ℤ`/`ℕ`,
timestamps as integer seconds, fallible calls as `Except`/`Option`, and
network collaborators (model gateway, tool executor, embedding provider)
as explicit oracle functions passed to the embedded code.
-/

namespace FileGeek

/-! ## Study — SM-2 scheduler (`routers/study.py`, `save_flashcard_progress`)

The endpoint's transition on an existing `FlashcardProgress` row: status is
overwritten, `review_count` incremented, `updated_at` refreshed (elided —
not claim-relevant), then the SM-2 branch mutates ease factor, interval and
next-review date.  `datetime.utcnow()` is modelled as a single instant `now`
in integer seconds; `timedelta(days = d)` adds `86400 * d` seconds.
-/

namespace Study

inductive Status where
  | known
  | reviewing
  | remaining
deriving DecidableEq, Repr

/-- The claim-relevant columns of the `flashcard_progress` row
(`models_async.py`): `status`, `ease_factor` (float → `ℚ`),
`interval_days` (int), `next_review_date` (nullable datetime → `Option ℤ`
seconds), `review_count` (int). -/
structure FlashcardProgress where
  status : Status
  easeFactor : ℚ
  intervalDays : ℤ
  nextReviewDate : Option ℤ
  reviewCount : ℤ
deriving DecidableEq, Repr

/-- Python's `int()` conversion truncates toward zero. -/
def pyInt (q : ℚ) : ℤ := if 0 ≤ q then ⌊q⌋ else ⌈q⌉

/-- `datetime + timedelta(days = d)` over integer-second timestamps. -/
def addDays (t d : ℤ) : ℤ := t + 86400 * d

/-- The SM-2 mutation block of `save_flashcard_progress`
(`routers/study.py` lines 59–75), for an existing progress row.
Field updates follow the source order: `status`, `review_count += 1`, then
the outcome branch; the `known` branch computes the new ease factor first
and uses it for the interval, exactly as the Python attribute writes do. -/
def saveFlashcardProgress (p : FlashcardProgress) (outcome : Status) (now : ℤ) :
    FlashcardProgress :=
  let p1 : FlashcardProgress :=
    { p with status := outcome, reviewCount := p.reviewCount + 1 }
  match outcome with
  | .known =>
      let ef := min ((5 : ℚ)/2) (p1.easeFactor + 1/10)
      let iv := max 1 (pyInt ((p1.intervalDays : ℚ) * ef))
      { p1 with easeFactor := ef, intervalDays := iv,
                nextReviewDate := some (addDays now iv) }
  | .reviewing =>
      let ef := max ((13 : ℚ)/10) (p1.easeFactor - 3/20)
      { p1 with easeFactor := ef, intervalDays := 1,
                nextReviewDate := some (addDays now 1) }
  | .remaining =>
      let ef := max ((13 : ℚ)/10) (p1.easeFactor - 3/10)
      { p1 with easeFactor := ef, intervalDays := 1,
                nextReviewDate := none }

end Study

end FileGeek

namespace FileGeek

namespace Study

/-- Truncation agrees with floor on non-negative rationals. -/
theorem pyInt_eq_floor {q : ℚ} (h : 0 ≤ q) : pyInt q = ⌊q⌋ := by
  simp [pyInt, h]

/-- C1: the SM-2 review transition satisfies the spec table.  For a record
with ease factor within the data-model invariant (`1.3 ≤ ease`) and a
positive interval, outcome `known` gives `ease' = min(2.5, ease + 0.1)`,
`interval' = max(1, floor(interval × ease'))` and
`next_review = now + interval'` days; `reviewing` gives
`ease' = max(1.3, ease − 0.15)`, interval 1, `next_review = now + 1` day;
`remaining` gives `ease' = max(1.3, ease − 0.3)`, interval 1 and clears
`next_review`; and `review_count` increments by exactly 1 on every call. -/
theorem sm2_review_table (p : FlashcardProgress) (now : ℤ)
    (hease : (13 : ℚ)/10 ≤ p.easeFactor) (hint : 1 ≤ p.intervalDays) :
    (saveFlashcardProgress p .known now =
      { p with
        status := .known, reviewCount := p.reviewCount + 1,
        easeFactor := min ((5 : ℚ)/2) (p.easeFactor + 1/10),
        intervalDays :=
          max 1 ⌊(p.intervalDays : ℚ) * min ((5 : ℚ)/2) (p.easeFactor + 1/10)⌋,
        nextReviewDate := some (addDays now
          (max 1 ⌊(p.intervalDays : ℚ) * min ((5 : ℚ)/2) (p.easeFactor + 1/10)⌋)) }) ∧
    (saveFlashcardProgress p .reviewing now =
      { p with
        status := .reviewing, reviewCount := p.reviewCount + 1,
        easeFactor := max ((13 : ℚ)/10) (p.easeFactor - 3/20),
        intervalDays := 1,
        nextReviewDate := some (addDays now 1) }) ∧
    (saveFlashcardProgress p .remaining now =
      { p with
        status := .remaining, reviewCount := p.reviewCount + 1,
        easeFactor := max ((13 : ℚ)/10) (p.easeFactor - 3/10),
        intervalDays := 1,
        nextReviewDate := none }) ∧
    (∀ o : Status, (saveFlashcardProgress p o now).reviewCount = p.reviewCount + 1) := by
  have hef : (0 : ℚ) ≤ min ((5 : ℚ)/2) (p.easeFactor + 1/10) := by
    apply le_min <;> linarith
  have hprod : (0 : ℚ) ≤ (p.intervalDays : ℚ) * min ((5 : ℚ)/2) (p.easeFactor + 1/10) := by
    have : (1 : ℚ) ≤ (p.intervalDays : ℚ) := by exact_mod_cast hint
    nlinarith
  refine ⟨?_, rfl, rfl, ?_⟩
  · simp only [saveFlashcardProgress, pyInt_eq_floor hprod]
  · intro o; cases o <;> rfl

/-- Witness for C1 at the spec's own test vector: ease 2.5, interval 5,
outcome `known` gives interval `max(1, ⌊5 × 2.5⌋) = 12`. -/
theorem sm2_review_table_witness :
    saveFlashcardProgress ⟨Status.remaining, (5 : ℚ)/2, 5, none, 0⟩ Status.known 0 =
      { status := Status.known, reviewCount := 1,
        easeFactor := min ((5 : ℚ)/2) ((5 : ℚ)/2 + 1/10),
        intervalDays := max 1 ⌊((5 : ℤ) : ℚ) * min ((5 : ℚ)/2) ((5 : ℚ)/2 + 1/10)⌋,
        nextReviewDate := some (addDays 0
          (max 1 ⌊((5 : ℤ) : ℚ) * min ((5 : ℚ)/2) ((5 : ℚ)/2 + 1/10)⌋)) } :=
  (sm2_review_table ⟨Status.remaining, (5 : ℚ)/2, 5, none, 0⟩ 0
    (by norm_num) (by norm_num)).1

end Study

end FileGeek

namespace FileGeek

/-- Dot product of two rational vectors — one row of `mat @ query_vec`
(`numpy` dot product over `float32`, modelled over `ℚ`). -/
def dot (a b : List ℚ) : ℚ := (List.zipWith (· * ·) a b).sum

namespace VectorStoreM

/-- One stored `DocumentChunk` row as `VectorStore._rank` reads it.
`embedding` models the stored byte buffer after `np.frombuffer`:
`some v` when the byte length is a multiple of 4 (decoding to `v`, of
whatever length), `none` when `frombuffer` itself raises. -/
structure Chunk where
  chunkText : String
  pages : List ℕ
  documentId : String
  chunkIndex : ℕ
  embedding : Option (List ℚ)
deriving DecidableEq, Repr, Inhabited

/-- `SearchResult` dataclass of `services/vector_store.py`. -/
structure SearchResult where
  chunkText : String
  pages : List ℕ
  documentId : String
  score : ℚ
  chunkIndex : ℕ
deriving DecidableEq, Repr

/-- The per-row decode step of `VectorStore._rank` (lines 287–295): a row
whose buffer fails to decode, or decodes to a length other than the query
dimensionality, is replaced by `np.zeros(dim)`. -/
def decodeVec (dim : ℕ) : Option (List ℚ) → List ℚ
  | some v => if v.length = dim then v else List.replicate dim 0
  | none => List.replicate dim 0

/-- A row is "bad" when its stored bytes do not decode to the query
dimensionality (undecodable buffer, or wrong vector length). -/
def badEmb (dim : ℕ) : Option (List ℚ) → Bool
  | some v => v.length ≠ dim
  | none => true

/-- `scores = mat @ query_vec` of `_rank` (lines 297–298), one score per
stored row in storage order. -/
def scoresOf (rows : List Chunk) (q : List ℚ) : List ℚ :=
  rows.map fun r => dot (decodeVec q.length r.embedding) q

/-- The comparison under the `np.argsort(scores)` model: ascending by
score, ties by ascending position.  Sorting the (already ascending) index
list `range n` by this key is exactly a stable ascending argsort — the
canonical deterministic semantics of the source's `np.argsort` (whose tie
order numpy does not document for its default sort; on the concrete
counterexample below numpy's insertion sort for small arrays agrees). -/
def scoreKey (s : List ℚ) (i j : ℕ) : Prop :=
  s.getD i 0 < s.getD j 0 ∨ (s.getD i 0 = s.getD j 0 ∧ i ≤ j)

instance scoreKeyDec (s : List ℚ) : DecidableRel (scoreKey s) := fun i j => by
  unfold scoreKey; infer_instance

/-- `np.argsort(scores)[::-1][:k]` of `_rank` (line 299). -/
def rankIdx (s : List ℚ) (k : ℕ) : List ℕ :=
  ((List.insertionSort (scoreKey s) (List.range s.length)).reverse).take k

/-- Building one `SearchResult` from a row and its score (lines 302–314;
the `pages` JSON decode with its `[]` fallback is already folded into the
`pages` field, which no claim touches). -/
def mkResult (r : Chunk) (score : ℚ) : SearchResult :=
  ⟨r.chunkText, r.pages, r.documentId, score, r.chunkIndex⟩

/-- `VectorStore._rank` (lines 279–315): empty input short-circuits to
`[]`; otherwise score every row, take the top-`k` indices of the reversed
ascending argsort, and build results in that order.  Indices produced by
`rankIdx` always lie below `rows.length`, so the `getD` default is never
read (`rows[idx]` in the source). -/
def rank (rows : List Chunk) (q : List ℚ) (k : ℕ) : List SearchResult :=
  if rows.isEmpty then []
  else
    let s := scoresOf rows q
    (rankIdx s k).map fun i => mkResult (rows.getD i default) (s.getD i 0)

theorem scoreKey_total (s : List ℚ) : ∀ i j, scoreKey s i j ∨ scoreKey s j i := by
  intro i j
  rcases lt_trichotomy (s.getD i 0) (s.getD j 0) with h | h | h
  · exact Or.inl (Or.inl h)
  · rcases Nat.le_total i j with hij | hij
    · exact Or.inl (Or.inr ⟨h, hij⟩)
    · exact Or.inr (Or.inr ⟨h.symm, hij⟩)
  · exact Or.inr (Or.inl h)

theorem scoreKey_trans (s : List ℚ) :
    ∀ i j l, scoreKey s i j → scoreKey s j l → scoreKey s i l := by
  intro i j l hij hjl
  rcases hij with h1 | ⟨h1, h1'⟩ <;> rcases hjl with h2 | ⟨h2, h2'⟩
  · exact Or.inl (h1.trans h2)
  · exact Or.inl (h2 ▸ h1)
  · exact Or.inl (h1 ▸ h2)
  · exact Or.inr ⟨h1.trans h2, h1'.trans h2'⟩

/-- The reversed argsort is pairwise ordered by the flipped key. -/
theorem rankIdx_pairwise (s : List ℚ) (k : ℕ) :
    (rankIdx s k).Pairwise fun i j => scoreKey s j i := by
  haveI : IsTotal ℕ (scoreKey s) := ⟨scoreKey_total s⟩
  haveI : IsTrans ℕ (scoreKey s) := ⟨scoreKey_trans s⟩
  have hs : List.Sorted (scoreKey s)
      (List.insertionSort (scoreKey s) (List.range s.length)) :=
    List.sorted_insertionSort _ _
  have hrev : ((List.insertionSort (scoreKey s) (List.range s.length)).reverse).Pairwise
      fun i j => scoreKey s j i :=
    List.pairwise_reverse.mpr hs
  exact List.Pairwise.sublist (List.take_sublist k _) hrev

theorem rankIdx_nodup (s : List ℚ) (k : ℕ) : (rankIdx s k).Nodup := by
  have h1 : (List.insertionSort (scoreKey s) (List.range s.length)).Nodup :=
    (List.perm_insertionSort (scoreKey s) (List.range s.length)).symm.nodup
      (List.nodup_range _)
  exact List.Nodup.sublist (List.take_sublist k _) (List.nodup_reverse.mpr h1)

end VectorStoreM

end FileGeek

namespace FileGeek

namespace VectorStoreM

theorem decodeVec_bad (dim : ℕ) (e : Option (List ℚ)) (h : badEmb dim e = true) :
    decodeVec dim e = List.replicate dim 0 := by
  cases e with
  | none => rfl
  | some v =>
      simp only [badEmb, decide_eq_true_eq] at h
      simp [decodeVec, h]

theorem dot_replicate_zero (n : ℕ) (q : List ℚ) : dot (List.replicate n 0) q = 0 := by
  induction n generalizing q with
  | zero => simp [dot]
  | succ n ih =>
      cases q with
      | nil => simp [dot]
      | cons a q =>
          simp only [dot, List.replicate_succ, List.zipWith_cons_cons, List.sum_cons,
            zero_mul, zero_add] at *
          exact ih q

/-- C8: for every vector-store search, a stored row whose vector bytes do
not decode to the query vector's dimensionality contributes a score of
exactly 0 — it is scored as a zero vector.  (`_rank` catches the decode
failure and substitutes `np.zeros(dim)`, so such a row never raises; in
the embedding `rank` is a total function.)  The ranking reads its scores
from `scoresOf` at the same indices, so a bad row's score is 0 wherever it
appears in the results. -/
theorem badRow_scores_zero (rows : List Chunk) (q : List ℚ) (i : ℕ)
    (hi : i < rows.length)
    (hbad : badEmb q.length (rows.getD i default).embedding = true) :
    (scoresOf rows q).getD i 0 = 0 := by
  have hrow : rows.getD i default = rows[i] := List.getD_eq_getElem rows default hi
  have h1 : (scoresOf rows q).getD i 0 =
      dot (decodeVec q.length rows[i].embedding) q := by
    unfold scoresOf
    rw [List.getD_eq_getElem?_getD, List.getElem?_map, List.getElem?_eq_getElem hi]
    rfl
  rw [h1, decodeVec_bad _ _ (hrow ▸ hbad), dot_replicate_zero]

/-- Witness for C8: one stored row whose vector decodes to length 2
against a 3-dimensional query scores exactly 0. -/
theorem badRow_scores_zero_witness :
    (scoresOf [⟨"t", [], "d", 0, some [1, 2]⟩] [1, 0, 0]).getD 0 0 = 0 :=
  badRow_scores_zero [⟨"t", [], "d", 0, some [1, 2]⟩] [1, 0, 0] 0
    (by norm_num) (by rfl)

end VectorStoreM

end FileGeek

namespace FileGeek

namespace VectorStoreM

/-- C3 (amended): every vector-store search result list is sorted by
non-increasing score, but when two candidates have equal scores they
appear in the result in the *reverse* of their storage order — the source
computes `np.argsort(scores)[::-1]`, an ascending argsort that is then
reversed wholesale, so equal-score ties come out in descending storage
position (under the stable-ascending model of `np.argsort`), not in
storage order as the claim states. -/
theorem rank_sorted_ties_reversed (rows : List Chunk) (q : List ℚ) (k : ℕ) :
    ((rank rows q k).Pairwise fun a b => b.score ≤ a.score) ∧
    ((rankIdx (scoresOf rows q) k).Pairwise fun i j =>
      (scoresOf rows q).getD i 0 = (scoresOf rows q).getD j 0 → j < i) := by
  constructor
  · unfold rank
    by_cases h : rows.isEmpty
    · simp [h]
    · simp only [h, Bool.false_eq_true, if_false]
      refine List.Pairwise.map _ ?_ (rankIdx_pairwise (scoresOf rows q) k)
      intro a b hk
      show (scoresOf rows q).getD b 0 ≤ (scoresOf rows q).getD a 0
      rcases hk with h1 | ⟨h1, _⟩
      · exact le_of_lt h1
      · exact le_of_eq h1
  · have hp := rankIdx_pairwise (scoresOf rows q) k
    have hd : (rankIdx (scoresOf rows q) k).Pairwise (· ≠ ·) :=
      rankIdx_nodup (scoresOf rows q) k
    refine (hp.and hd).imp ?_
    intro i j hij heq
    rcases hij with ⟨hlt | ⟨_, hle⟩, hne⟩
    · exact absurd (heq ▸ hlt) (lt_irrefl _)
    · exact lt_of_le_of_ne hle fun hji => hne hji.symm

/-- Two rows with identical embeddings: a concrete score tie. -/
def tieRows : List Chunk :=
  [⟨"first", [], "doc", 0, some [1]⟩, ⟨"second", [], "doc", 1, some [1]⟩]

/-- C3 counterexample: on two equal-score rows the search returns the
second stored row first — ties do NOT retain the underlying storage
order, refuting the claim as stated. -/
theorem rank_tie_breaks_storage_order :
    (rank tieRows [1] 5).map SearchResult.chunkIndex = [1, 0] ∧
    (rank tieRows [1] 5).map SearchResult.chunkIndex ≠ [0, 1] := by
  have h : (rank tieRows [1] 5).map SearchResult.chunkIndex = [1, 0] := by
    norm_num [rank, tieRows, rankIdx, scoresOf, dot, decodeVec, scoreKey, mkResult,
      List.insertionSort, List.orderedInsert, List.range_succ]
  refine ⟨h, ?_⟩
  rw [h]
  decide

end VectorStoreM

end FileGeek

namespace FileGeek

/-! ## MemoryServiceM — `services/memory_service.py`

`retrieve_relevant_memory` fetches all of a user's memory rows with a
plain `SELECT ... WHERE user_id = ?` carrying **no ORDER BY**: the rows
arrive in the underlying storage (rowid/insertion) order, oldest first.
The model takes that list directly.  A row's `embedding` is `none` when
`np.frombuffer` on its bytes raises (`except: pass` skips the row) and
`some v` when it decodes to `v`.
-/

namespace MemoryServiceM

/-- One `UserMemoryEntry` row as `_rank_memories` reads it. -/
structure MemRow where
  summary : String
  embedding : Option (List ℚ)
deriving DecidableEq, Repr, Inhabited

/-- The dimensionality filter of `_rank_memories` (lines 167–175): keep a
row only when its buffer decodes and has the query's length. -/
def goodDim (dim : ℕ) : Option (List ℚ) → Bool
  | some v => v.length == dim
  | none => false

/-- `MemoryService._rank_memories` (lines 164–183): filter rows to the
query's dimensionality; if none survive, fall back to the summaries of
`rows[:n]` — the first `n` rows in storage order; otherwise rank the
surviving rows by dot product with the same reversed-argsort scheme as
the vector store and return the top `n` summaries. -/
def rankMemories (rows : List MemRow) (q : List ℚ) (n : ℕ) : List String :=
  let valid := rows.filter fun r => goodDim q.length r.embedding
  if valid.isEmpty then (rows.take n).map MemRow.summary
  else
    let s := valid.map fun r => dot (r.embedding.getD []) q
    (VectorStoreM.rankIdx s n).map fun i => (valid.getD i default).summary

/-- `MemoryService.retrieve_relevant_memory` (lines 79–102): no rows at
all gives `[]`; otherwise `_rank_memories`. -/
def retrieveRelevantMemory (rows : List MemRow) (q : List ℚ) (n : ℕ) : List String :=
  if rows.isEmpty then [] else rankMemories rows q n

/-- Modelled from the spec's words, for comparison with the source: "the
`n` most-recently-stored summaries" — the last `n` rows of the
storage-ordered list, newest first. -/
def specMostRecentSummaries (rows : List MemRow) (n : ℕ) : List String :=
  (rows.reverse.take n).map MemRow.summary

/-- Two stored memories, oldest first, both with 2-dimensional vectors. -/
def staleRows : List MemRow := [⟨"older", some [1, 1]⟩, ⟨"newer", some [1, 1]⟩]

/-- C4 counterexample: with two stored memories whose vectors both
mismatch a 3-dimensional query, `retrieve_relevant_memory(..., n = 1)`
returns the OLDEST summary (`rows[:1]` of the storage-ordered select),
not the most-recently-stored one the claim promises. -/
theorem memory_fallback_not_most_recent :
    retrieveRelevantMemory staleRows [1, 0, 0] 1 = ["older"] ∧
    retrieveRelevantMemory staleRows [1, 0, 0] 1 ≠ specMostRecentSummaries staleRows 1 := by
  have h : retrieveRelevantMemory staleRows [1, 0, 0] 1 = ["older"] := by
    norm_num [retrieveRelevantMemory, rankMemories, staleRows, goodDim]
  refine ⟨h, ?_⟩
  rw [h]
  decide

/-- C4 (amended): for a user with at least one stored memory, when no
stored vector matches the query's dimensionality,
`retrieve_relevant_memory` returns the summaries of the FIRST `n` rows in
storage order (the `n` oldest entries, not the `n` most recent) — still a
non-empty list for `n > 0`, and never an error (the embedding is a total
function). -/
theorem memory_fallback_first_n (rows : List MemRow) (q : List ℚ) (n : ℕ)
    (hne : rows ≠ [])
    (hmis : ∀ r ∈ rows, goodDim q.length r.embedding = false) :
    retrieveRelevantMemory rows q n = (rows.take n).map MemRow.summary ∧
    (0 < n → retrieveRelevantMemory rows q n ≠ []) := by
  have hfilter : rows.filter (fun r => goodDim q.length r.embedding) = [] := by
    rw [List.filter_eq_nil_iff]
    intro r hr
    simp [hmis r hr]
  have hempty : rows.isEmpty = false := by
    cases rows with
    | nil => exact absurd rfl hne
    | cons a l => rfl
  have hmain : retrieveRelevantMemory rows q n = (rows.take n).map MemRow.summary := by
    unfold retrieveRelevantMemory rankMemories
    simp [hempty, hfilter]
  refine ⟨hmain, fun hn => ?_⟩
  rw [hmain]
  cases rows with
  | nil => exact absurd rfl hne
  | cons a l =>
      cases n with
      | zero => exact absurd hn (by omega)
      | succ m => simp

/-- Witness for C4 (amended) at one stored 1-dimensional memory against a
2-dimensional query. -/
theorem memory_fallback_first_n_witness :
    retrieveRelevantMemory [⟨"a", some [1]⟩] [1, 0] 1 =
      (([⟨"a", some [1]⟩] : List MemRow).take 1).map MemRow.summary ∧
    (0 < 1 → retrieveRelevantMemory [⟨"a", some [1]⟩] [1, 0] 1 ≠ []) :=
  memory_fallback_first_n [⟨"a", some [1]⟩] [1, 0] 1 (by simp)
    (by intro r hr; simp at hr; subst hr; rfl)

end MemoryServiceM

end FileGeek

namespace FileGeek

/-! ## LLMServiceM — `services/llm.py`

`_detect_provider` fixes ONE provider from the environment at import
time; `LLMService.chat` issues the request to that provider only.  The
network is an oracle `call provider withTools ↦ outcome`; `chat` also
returns the trace of backend calls it made, in order.  Model-id
resolution (`resolve_model`) is orthogonal to the fallback question and
is summarised by `modelHasSlash`, the `"/" in model_id` test that
`_is_openrouter_model` performs.
-/

namespace LLMServiceM

/-- The environment variables `_detect_provider` (lines 36–46) reads:
`AI_PROVIDER` (already lowercased, as the source lowercases it) and the
presence of each credential. -/
structure Env where
  aiProvider : String
  openrouterKey : Bool
  openaiKey : Bool
  googleKey : Bool
  geminiKey : Bool
deriving DecidableEq, Repr

/-- `_detect_provider`: an explicit valid `AI_PROVIDER` wins; otherwise
the first backend with credentials in the order
openrouter → openai → gemini; otherwise `"openai"`. -/
def detectProvider (e : Env) : String :=
  if e.aiProvider = "openrouter" ∨ e.aiProvider = "gemini" ∨ e.aiProvider = "openai" then
    e.aiProvider
  else if e.openrouterKey then "openrouter"
  else if e.openaiKey then "openai"
  else if e.googleKey ∨ e.geminiKey then "gemini"
  else "openai"

/-- One backend request: which provider it went to and whether the tool
catalogue was attached. -/
structure ChatCall where
  provider : String
  toolsAttached : Bool
deriving DecidableEq, Repr

/-- `LLMService.chat` (lines 89–133), returning the outcome and the trace
of backend calls.  The gemini branch (`_chat_gemini`, taken when the
detected provider is gemini and the resolved model id has no slash)
issues a single tool-less request with no retry; otherwise the request
goes to the detected provider, and if it carried tools and failed it is
retried exactly once without tools before the error is surfaced. -/
def chat (call : String → Bool → Except Unit String) (e : Env)
    (modelHasSlash : Bool) (hasTools : Bool) :
    Except Unit String × List ChatCall :=
  let p := detectProvider e
  if p = "gemini" ∧ modelHasSlash = false then
    (call p false, [⟨p, false⟩])
  else
    match call p hasTools with
    | .ok r => (.ok r, [⟨p, hasTools⟩])
    | .error err =>
        if hasTools then
          (call p false, [⟨p, hasTools⟩, ⟨p, false⟩])
        else
          (.error err, [⟨p, hasTools⟩])

/-- The concrete environment of the counterexample: no explicit provider,
credentials present for BOTH openrouter and openai. -/
def envBoth : Env := ⟨"", true, true, false, false⟩

/-- A backend oracle on which openrouter always fails while openai always
succeeds. -/
def orDownOaiUp : String → Bool → Except Unit String := fun p _ =>
  if p = "openrouter" then .error () else .ok "answer-from-openai"

/-- C5 counterexample: with both openrouter and openai credentialed and
the primary (openrouter) failing, `chat` makes both of its calls to
openrouter (the tool retry included), never tries openai — whose request
would have succeeded — and surfaces the error.  The claimed
try-every-credentialed-backend fallback does not exist. -/
theorem chat_error_despite_live_secondary :
    (chat orDownOaiUp envBoth false true).1 = Except.error () ∧
    (chat orDownOaiUp envBoth false true).2 =
      [⟨"openrouter", true⟩, ⟨"openrouter", false⟩] ∧
    orDownOaiUp "openai" true = Except.ok "answer-from-openai" := by
  refine ⟨rfl, rfl, rfl⟩

/-- C5 (amended): every backend request a `chat` call issues goes to the
single provider fixed by `_detect_provider`; at most two requests are
made (the optional retry being the tool-less retry against that same
provider); and the call surfaces an error exactly when every request in
its trace failed.  No other credentialed backend is ever tried. -/
theorem chat_single_provider (call : String → Bool → Except Unit String)
    (e : Env) (ms ht : Bool) :
    ((chat call e ms ht).2.all fun c => c.provider = detectProvider e) ∧
    (chat call e ms ht).2 ≠ [] ∧
    (chat call e ms ht).2.length ≤ 2 ∧
    ((chat call e ms ht).1 = Except.error () ↔
      ∀ c ∈ (chat call e ms ht).2, call c.provider c.toolsAttached = Except.error ()) := by
  unfold chat
  by_cases hg : detectProvider e = "gemini" ∧ ms = false
  · simp only [hg, and_self, if_true]
    cases hc : call (detectProvider e) false with
    | ok r => simp [hc]
    | error err => simp [hc]
  · simp only [hg, if_false]
    cases hc1 : call (detectProvider e) ht with
    | ok r => simp [hc1]
    | error e1 =>
        cases ht with
        | false => simp [hc1]
        | true =>
            cases hc2 : call (detectProvider e) false with
            | ok r => simp [hc1, hc2]
            | error e2 => simp [hc1, hc2]

end LLMServiceM

end FileGeek

namespace FileGeek

/-! ## ChatEngineM — `services/chat_engine.py`

The agentic loop `ChatEngine.generate_response` (lines 50–249).  The
Model Gateway is an oracle `gw : ℕ → Except Unit LLMResponse` indexed by
the position of the chat call within the invocation (each round makes
exactly one call; the post-loop forced completion is the next index); a
raised exception is `.error ()`.  The Tool Executor is an oracle
`exec : name → args → result` (the constant session/user scope arguments
are elided).  Tool-call JSON arguments appear already parsed in
`ToolCall.args` (`json.loads` with its malformed→`{}` degradation).  The
suggestion-block regex + JSON parse of `_parse_extras` is summarised by
an oracle `ps : String → List String`; no claim depends on its value.
Progress events (`emit`) are fire-and-forget and not modelled.
-/

namespace ChatEngineM

/-- `needle` is a prefix of the second list. -/
def startsWithL : List Char → List Char → Bool
  | [], _ => true
  | _ :: _, [] => false
  | a :: as, b :: bs => a == b && startsWithL as bs

/-- Python's `needle in hay` substring test. -/
def hasSub (needle : List Char) : List Char → Bool
  | [] => needle.isEmpty
  | c :: rest => startsWithL needle (c :: rest) || hasSub needle rest

def strIn (needle hay : String) : Bool := hasSub needle.data hay.data

/-- `question.lower()` (ASCII keywords only are compared against it). -/
def pyLower (s : String) : String := ⟨s.data.map Char.toLower⟩

/-- The flashcard keyword family (line 112). -/
def flashKw (ql : String) : Bool :=
  strIn "flashcard" ql || strIn "flash card" ql || strIn "study card" ql

/-- The quiz keyword family (line 114). -/
def quizKw (ql : String) : Bool :=
  strIn "quiz" ql || strIn "test me" ql || strIn "multiple choice" ql

/-- The study-guide keyword family (line 116). -/
def guideKw (ql : String) : Bool :=
  strIn "study guide" ql || strIn "outline" ql

/-- The visualization keyword family (line 118). -/
def vizKw (ql : String) : Bool :=
  strIn "diagram" ql || strIn "mind map" ql || strIn "visualization" ql ||
  strIn "chart" ql

/-- The forced-tool decision (lines 110–121), computed once per
invocation from the lowercased question and the has-documents flag. -/
def forcedToolOf (question : String) (hasDocs : Bool) : Option String :=
  let ql := pyLower question
  if flashKw ql then some "generate_flashcards"
  else if quizKw ql then some "generate_quiz"
  else if guideKw ql then some "create_study_guide"
  else if vizKw ql then some "generate_visualization"
  else if hasDocs then some "search_documents"
  else none

inductive ToolChoice where
  | auto
  | function (name : String)
deriving DecidableEq, Repr

/-- The per-round tool-choice constraint (lines 139–142): the forced tool
only on round 0, `auto` otherwise. -/
def toolChoiceAt (roundNum : ℕ) (question : String) (hasDocs : Bool) : ToolChoice :=
  match roundNum, forcedToolOf question hasDocs with
  | 0, some t => .function t
  | _, _ => .auto

/-- One tool-call request from the model; `args` holds the already-parsed
JSON arguments (`json.loads`, degrading to `[]` on malformed JSON). -/
structure ToolCall where
  id : String
  name : String
  args : List (String × String)
deriving DecidableEq, Repr

/-- The tool executor's result dict: its `artifact_type` value (when the
key is present) and its key list (logged as `result_keys`). -/
structure ToolResult where
  artifactType : Option String
  keys : List String
deriving DecidableEq, Repr

/-- Python truthiness of `result.get("artifact_type")`: a present,
non-empty string. -/
def pyTruthyStr : Option String → Bool
  | none => false
  | some s => !s.isEmpty

inductive Msg where
  | system (content : String)
  | user (content : String)
  | assistant (content : Option String) (toolCalls : List ToolCall)
  | tool (toolCallId : String) (result : ToolResult)
deriving DecidableEq, Repr

/-- One gateway response choice (`response.choices[0]`). -/
structure LLMResponse where
  content : Option String
  toolCalls : Option (List ToolCall)
  finishReason : String
deriving DecidableEq, Repr

/-- The tool branch test of line 166:
`finish_reason == "tool_calls" or (tool_calls and len(tool_calls) > 0)`. -/
def isToolCallResp (r : LLMResponse) : Bool :=
  r.finishReason == "tool_calls" || !(r.toolCalls.getD []).isEmpty

/-- One entry of `tool_calls_log` (lines 207–211). -/
structure LogEntry where
  tool : String
  args : List (String × String)
  resultKeys : List String
deriving DecidableEq, Repr

/-- The result dict of `generate_response`.  `toolCallsLog = none` models
the gateway-error dict, which carries no `tool_calls` key. -/
structure ChatResult where
  answer : String
  sources : List String
  artifacts : List ToolResult
  suggestions : List String
  toolCallsLog : Option (List LogEntry)
deriving DecidableEq, Repr

/-- One gateway call made by the loop: its index, whether the tool
catalogue was attached, and the round's tool-choice constraint. -/
structure CallRec where
  idx : ℕ
  toolsAttached : Bool
  choice : ToolChoice
deriving DecidableEq, Repr

/-- Python dict assignment `d[k] = v`. -/
def setKey (l : List (String × String)) (k v : String) : List (String × String) :=
  if l.any fun p => p.1 == k then
    l.map fun p => if p.1 == k then (k, v) else p
  else l ++ [(k, v)]

/-- `if model: fn_args["model"] = model` (lines 197–198). -/
def injectModel (pinned : Option String) (args : List (String × String)) :
    List (String × String) :=
  if pyTruthyStr pinned then setKey args "model" (pinned.getD "") else args

/-- The gateway-error dict of lines 158–161. -/
def errorResult : ChatResult :=
  ⟨"I encountered an error processing your request.", [], [], [], none⟩

/-- `_parse_extras` (lines 278–295): the `search_documents` loop body is
`pass`, so the sources list stays `[]` unconditionally; suggestions are
the regex + JSON parse of the trailing fenced block, summarised by the
oracle `ps`. -/
def parseExtras (ps : String → List String) (answer : String)
    (_log : List LogEntry) : List String × List String :=
  ([], ps answer)

/-- The per-round tool execution loop (lines 190–220): for each requested
tool in model order, inject the pinned model into its args, execute it,
append the log entry, collect the result as an artifact when
`artifact_type` is truthy, and append the tool-role message. -/
def execTools (exec : String → List (String × String) → ToolResult)
    (pinned : Option String) :
    List ToolCall → List Msg → List ToolResult → List LogEntry →
    List Msg × List ToolResult × List LogEntry
  | [], msgs, arts, log => (msgs, arts, log)
  | tc :: rest, msgs, arts, log =>
      let args := injectModel pinned tc.args
      let r := exec tc.name args
      let log2 := log ++ [⟨tc.name, args, r.keys⟩]
      let arts2 := if pyTruthyStr r.artifactType then arts ++ [r] else arts
      let msgs2 := msgs ++ [.tool tc.id r]
      execTools exec pinned rest msgs2 arts2 log2

/-- `MAX_ROUNDS = 3` (line 40). -/
def MAX_ROUNDS : ℕ := 3

/-- The round loop of `generate_response` plus the post-loop forced
completion (lines 137–249).  `roundsLeft` counts the remaining rounds of
`range(MAX_ROUNDS)`; `roundNum` is the index of the next gateway call.
Besides the result dict it returns the trace of gateway calls made. -/
def runRounds (gw : ℕ → Except Unit LLMResponse)
    (exec : String → List (String × String) → ToolResult)
    (ps : String → List String) (pinned : Option String)
    (question : String) (hasDocs : Bool) :
    ℕ → ℕ → List Msg → List ToolResult → List LogEntry → List CallRec →
    ChatResult × List CallRec
  | 0, roundNum, _msgs, arts, log, calls =>
      match gw roundNum with
      | .ok resp =>
          let answer := resp.content.getD ""
          let ex := parseExtras ps answer log
          (⟨answer, ex.1, arts, ex.2, some log⟩, calls ++ [⟨roundNum, false, .auto⟩])
      | .error _ =>
          let answer := "I reached the maximum processing steps."
          let ex := parseExtras ps answer log
          (⟨answer, ex.1, arts, ex.2, some log⟩, calls ++ [⟨roundNum, false, .auto⟩])
  | fuel + 1, roundNum, msgs, arts, log, calls =>
      let choice := toolChoiceAt roundNum question hasDocs
      let calls2 := calls ++ [⟨roundNum, true, choice⟩]
      match gw roundNum with
      | .error _ => (errorResult, calls2)
      | .ok resp =>
          if isToolCallResp resp then
            let tcs := resp.toolCalls.getD []
            let msgs1 := msgs ++ [.assistant resp.content tcs]
            match execTools exec pinned tcs msgs1 arts log with
            | (msgs2, arts2, log2) =>
                runRounds gw exec ps pinned question hasDocs fuel (roundNum + 1)
                  msgs2 arts2 log2 calls2
          else
            let answer := resp.content.getD ""
            let ex := parseExtras ps answer log
            (⟨answer, ex.1, arts, ex.2, some log⟩, calls2)

/-- `ChatEngine.generate_response`: run the loop from round 0 on the
initial message list (system prompt + history + question, summarised as
`initMsgs` — no claim reads the messages). -/
def generateResponse (gw : ℕ → Except Unit LLMResponse)
    (exec : String → List (String × String) → ToolResult)
    (ps : String → List String) (question : String) (hasDocs : Bool)
    (pinned : Option String) (initMsgs : List Msg) :
    ChatResult × List CallRec :=
  runRounds gw exec ps pinned question hasDocs MAX_ROUNDS 0 initMsgs [] [] []

end ChatEngineM

end FileGeek

namespace FileGeek

namespace ChatEngineM

/-- C6: the round-0 tool-forcing decision follows the fixed keyword
priority — flashcard keywords force `generate_flashcards`; otherwise quiz
keywords force `generate_quiz`; otherwise study-guide keywords force
`create_study_guide`; otherwise visualization keywords force
`generate_visualization`; otherwise `search_documents` exactly when the
scope has indexed documents, and no constraint (`auto`) otherwise.  Round
0 turns the forced tool into a hard function constraint, and every round
after round 0 uses `auto`.  Concretely, "make me a quiz" forces the quiz
tool on round 0. -/
theorem forced_tool_priority (q : String) (d : Bool) (r : ℕ) :
    (flashKw (pyLower q) = true → forcedToolOf q d = some "generate_flashcards") ∧
    (flashKw (pyLower q) = false → quizKw (pyLower q) = true →
      forcedToolOf q d = some "generate_quiz") ∧
    (flashKw (pyLower q) = false → quizKw (pyLower q) = false →
      guideKw (pyLower q) = true → forcedToolOf q d = some "create_study_guide") ∧
    (flashKw (pyLower q) = false → quizKw (pyLower q) = false →
      guideKw (pyLower q) = false → vizKw (pyLower q) = true →
      forcedToolOf q d = some "generate_visualization") ∧
    (flashKw (pyLower q) = false → quizKw (pyLower q) = false →
      guideKw (pyLower q) = false → vizKw (pyLower q) = false →
      forcedToolOf q d = (if d then some "search_documents" else none)) ∧
    (toolChoiceAt 0 q d =
      (match forcedToolOf q d with
       | some t => ToolChoice.function t
       | none => ToolChoice.auto)) ∧
    (toolChoiceAt (r + 1) q d = ToolChoice.auto) ∧
    (toolChoiceAt 0 "make me a quiz" true = ToolChoice.function "generate_quiz") := by
  refine ⟨?_, ?_, ?_, ?_, ?_, ?_, ?_, ?_⟩
  · intro h1; simp [forcedToolOf, h1]
  · intro h1 h2; simp [forcedToolOf, h1, h2]
  · intro h1 h2 h3; simp [forcedToolOf, h1, h2, h3]
  · intro h1 h2 h3 h4; simp [forcedToolOf, h1, h2, h3, h4]
  · intro h1 h2 h3 h4; simp [forcedToolOf, h1, h2, h3, h4]
  · cases hf : forcedToolOf q d <;> simp [toolChoiceAt, hf]
  · cases hf : forcedToolOf q d <;> simp [toolChoiceAt, hf]
  · decide

/-- In every return path of the loop the sources list is `[]`. -/
theorem runRounds_sources_nil (gw : ℕ → Except Unit LLMResponse)
    (exec : String → List (String × String) → ToolResult)
    (ps : String → List String) (pinned : Option String)
    (question : String) (hasDocs : Bool) :
    ∀ fuel roundNum msgs arts log calls,
      (runRounds gw exec ps pinned question hasDocs fuel roundNum
        msgs arts log calls).1.sources = [] := by
  intro fuel
  induction fuel with
  | zero =>
      intro rn msgs arts log calls
      unfold runRounds
      cases gw rn <;> rfl
  | succ n ih =>
      intro rn msgs arts log calls
      unfold runRounds
      cases hg : gw rn with
      | error e => rfl
      | ok resp =>
          by_cases ht : isToolCallResp resp = true
          · simp only [ht, if_true]
            rcases hE : execTools exec pinned (resp.toolCalls.getD [])
                (msgs ++ [Msg.assistant resp.content (resp.toolCalls.getD [])])
                arts log with ⟨m2, a2, l2⟩
            exact ih _ _ _ _ _
          · simp only [Bool.not_eq_true] at ht
            simp only [ht, Bool.false_eq_true, if_false]
            rfl

/-- C10: every result dict the orchestration loop returns has
`sources = []`, for every input — on the terminal-answer path, the
exhaustion path and the error path alike — because `_parse_extras`
returns an unconditionally empty sources list regardless of which tools
ran or what the tool-call log contains. -/
theorem sources_always_empty (gw : ℕ → Except Unit LLMResponse)
    (exec : String → List (String × String) → ToolResult)
    (ps : String → List String) (question : String) (hasDocs : Bool)
    (pinned : Option String) (initMsgs : List Msg) :
    (generateResponse gw exec ps question hasDocs pinned initMsgs).1.sources = [] ∧
    (∀ answer log, (parseExtras ps answer log).1 = []) :=
  ⟨runRounds_sources_nil gw exec ps pinned question hasDocs MAX_ROUNDS 0
      initMsgs [] [] [],
   fun _ _ => rfl⟩

end ChatEngineM

end FileGeek

namespace FileGeek

namespace ChatEngineM

/-- After round 0 the tool choice is always `auto`. -/
theorem toolChoiceAt_succ (r : ℕ) (q : String) (d : Bool) :
    toolChoiceAt (r + 1) q d = ToolChoice.auto := by
  cases hf : forcedToolOf q d <;> simp [toolChoiceAt, hf]

/-- The tool-role messages a round's tool batch appends. -/
def toolMsgsOf (exec : String → List (String × String) → ToolResult)
    (pinned : Option String) (tcs : List ToolCall) : List Msg :=
  tcs.map fun tc => .tool tc.id (exec tc.name (injectModel pinned tc.args))

/-- The log entries a round's tool batch appends. -/
def logOf (exec : String → List (String × String) → ToolResult)
    (pinned : Option String) (tcs : List ToolCall) : List LogEntry :=
  tcs.map fun tc =>
    ⟨tc.name, injectModel pinned tc.args, (exec tc.name (injectModel pinned tc.args)).keys⟩

/-- The artifacts a round's tool batch collects: the results whose
`artifact_type` is truthy, in execution order. -/
def artsOf (exec : String → List (String × String) → ToolResult)
    (pinned : Option String) (tcs : List ToolCall) : List ToolResult :=
  (tcs.map fun tc => exec tc.name (injectModel pinned tc.args)).filter
    fun r => pyTruthyStr r.artifactType

theorem execTools_eq (exec : String → List (String × String) → ToolResult)
    (pinned : Option String) :
    ∀ tcs msgs arts log,
      execTools exec pinned tcs msgs arts log =
        (msgs ++ toolMsgsOf exec pinned tcs,
         arts ++ artsOf exec pinned tcs,
         log ++ logOf exec pinned tcs) := by
  intro tcs
  induction tcs with
  | nil => intro msgs arts log; simp [execTools, toolMsgsOf, artsOf, logOf]
  | cons tc rest ih =>
      intro msgs arts log
      unfold execTools
      rw [ih]
      by_cases hb :
          pyTruthyStr (exec tc.name (injectModel pinned tc.args)).artifactType = true
      · simp [hb, toolMsgsOf, artsOf, logOf, List.filter_cons]
      · simp only [Bool.not_eq_true] at hb
        simp [hb, toolMsgsOf, artsOf, logOf, List.filter_cons]

/-- One tool round: gateway returns a tool-call response, the batch runs,
and the loop recurses with one less unit of round budget. -/
theorem runRounds_toolstep (gw : ℕ → Except Unit LLMResponse)
    (exec : String → List (String × String) → ToolResult)
    (ps : String → List String) (pinned : Option String)
    (question : String) (hasDocs : Bool)
    (fuel roundNum : ℕ) (msgs : List Msg) (arts : List ToolResult)
    (log : List LogEntry) (calls : List CallRec) (resp : LLMResponse)
    (hok : gw roundNum = Except.ok resp) (ht : isToolCallResp resp = true) :
    runRounds gw exec ps pinned question hasDocs (fuel + 1) roundNum msgs arts log calls =
      runRounds gw exec ps pinned question hasDocs fuel (roundNum + 1)
        ((msgs ++ [Msg.assistant resp.content (resp.toolCalls.getD [])]) ++
          toolMsgsOf exec pinned (resp.toolCalls.getD []))
        (arts ++ artsOf exec pinned (resp.toolCalls.getD []))
        (log ++ logOf exec pinned (resp.toolCalls.getD []))
        (calls ++ [⟨roundNum, true, toolChoiceAt roundNum question hasDocs⟩]) := by
  conv_lhs => unfold runRounds
  simp only [hok, ht, if_true, execTools_eq]

/-- The exhaustion path: zero rounds left and a successful tool-less
completion. -/
theorem runRounds_exhausted_ok (gw : ℕ → Except Unit LLMResponse)
    (exec : String → List (String × String) → ToolResult)
    (ps : String → List String) (pinned : Option String)
    (question : String) (hasDocs : Bool)
    (roundNum : ℕ) (msgs : List Msg) (arts : List ToolResult)
    (log : List LogEntry) (calls : List CallRec) (resp : LLMResponse)
    (hok : gw roundNum = Except.ok resp) :
    runRounds gw exec ps pinned question hasDocs 0 roundNum msgs arts log calls =
      (⟨resp.content.getD "", [], arts, ps (resp.content.getD ""), some log⟩,
       calls ++ [⟨roundNum, false, ToolChoice.auto⟩]) := by
  unfold runRounds
  simp only [hok]
  rfl

/-- Reaching a failing gateway call: if every round before `j` returns a
tool-call response and round `j`'s call raises, the loop returns the
error dict. -/
theorem runRounds_error_of_gw_error (gw : ℕ → Except Unit LLMResponse)
    (exec : String → List (String × String) → ToolResult)
    (ps : String → List String) (pinned : Option String)
    (question : String) (hasDocs : Bool) :
    ∀ (j fuel roundNum : ℕ) (msgs : List Msg) (arts : List ToolResult)
      (log : List LogEntry) (calls : List CallRec),
      j < fuel →
      (∀ n, n < j → ∃ resp, gw (roundNum + n) = Except.ok resp ∧
        isToolCallResp resp = true) →
      gw (roundNum + j) = Except.error () →
      (runRounds gw exec ps pinned question hasDocs fuel roundNum
        msgs arts log calls).1 = errorResult := by
  intro j
  induction j with
  | zero =>
      intro fuel rn msgs arts log calls hf _ herr
      cases fuel with
      | zero => omega
      | succ n =>
          unfold runRounds
          simp only [Nat.add_zero] at herr
          simp only [herr]
  | succ j ih =>
      intro fuel rn msgs arts log calls hf htc herr
      cases fuel with
      | zero => omega
      | succ n =>
          obtain ⟨resp, hok, htcr⟩ := htc 0 (Nat.succ_pos j)
          simp only [Nat.add_zero] at hok
          unfold runRounds
          simp only [hok, htcr, if_true]
          rcases hE : execTools exec pinned (resp.toolCalls.getD [])
              (msgs ++ [Msg.assistant resp.content (resp.toolCalls.getD [])])
              arts log with ⟨m2, a2, l2⟩
          apply ih n (rn + 1) m2 a2 l2 _ (by omega)
          · intro nn hnn
            obtain ⟨r2, hg2, ht2⟩ := htc (nn + 1) (by omega)
            refine ⟨r2, ?_, ht2⟩
            have hx : rn + 1 + nn = rn + (nn + 1) := by omega
            rw [hx]; exact hg2
          · have hx : rn + 1 + j = rn + (j + 1) := by omega
            rw [hx]; exact herr

/-- C7: a Model Gateway exception at any of the three rounds is caught
and the loop returns the terminal answer
"I encountered an error processing your request." with empty sources,
artifacts and suggestions (and no `tool_calls` key); the exception is
never propagated — the embedded loop is a total function into the result
type. -/
theorem gateway_error_returns_apology (gw : ℕ → Except Unit LLMResponse)
    (exec : String → List (String × String) → ToolResult)
    (ps : String → List String) (question : String) (hasDocs : Bool)
    (pinned : Option String) (initMsgs : List Msg) (r : ℕ)
    (hr : r < MAX_ROUNDS)
    (htc : ∀ n, n < r → ∃ resp, gw n = Except.ok resp ∧ isToolCallResp resp = true)
    (herr : gw r = Except.error ()) :
    (generateResponse gw exec ps question hasDocs pinned initMsgs).1 = errorResult ∧
    errorResult =
      ⟨"I encountered an error processing your request.", [], [], [], none⟩ := by
  refine ⟨?_, rfl⟩
  unfold generateResponse
  apply runRounds_error_of_gw_error gw exec ps pinned question hasDocs r MAX_ROUNDS 0
    initMsgs [] [] [] hr
  · intro n hn
    simpa using htc n hn
  · simpa using herr

/-- Witness for C7: a gateway that raises immediately yields exactly the
apology dict. -/
theorem gateway_error_returns_apology_witness :
    (generateResponse (fun _ => Except.error ()) (fun _ _ => ⟨none, []⟩)
      (fun _ => []) "hello" false none []).1 = errorResult ∧
    errorResult =
      ⟨"I encountered an error processing your request.", [], [], [], none⟩ :=
  gateway_error_returns_apology (fun _ => Except.error ()) (fun _ _ => ⟨none, []⟩)
    (fun _ => []) "hello" false none [] 0 (by norm_num [MAX_ROUNDS])
    (fun n hn => absurd hn (Nat.not_lt_zero n)) rfl

end ChatEngineM

end FileGeek

namespace FileGeek

namespace ChatEngineM

/-- C2: when the Model Gateway returns a tool-call response on every
round, the loop executes exactly 3 rounds of tool execution (the trace
records three tool-attached gateway calls, with the round-0 constraint on
the first and `auto` afterwards), then issues exactly one additional
tool-less completion call and returns that call's text as the answer,
with the artifacts and tool-call log accumulated over the three rounds. -/
theorem loop_exhaustion (gw : ℕ → Except Unit LLMResponse)
    (exec : String → List (String × String) → ToolResult)
    (ps : String → List String) (question : String) (hasDocs : Bool)
    (pinned : Option String) (initMsgs : List Msg)
    (tcl : ℕ → List ToolCall) (cont : ℕ → Option String) (finalResp : LLMResponse)
    (hrounds : ∀ n, n < MAX_ROUNDS →
      gw n = Except.ok ⟨cont n, some (tcl n), "tool_calls"⟩)
    (hfinal : gw MAX_ROUNDS = Except.ok finalResp) :
    generateResponse gw exec ps question hasDocs pinned initMsgs =
      (⟨finalResp.content.getD "", [],
        (artsOf exec pinned (tcl 0) ++ artsOf exec pinned (tcl 1)) ++
          artsOf exec pinned (tcl 2),
        ps (finalResp.content.getD ""),
        some ((logOf exec pinned (tcl 0) ++ logOf exec pinned (tcl 1)) ++
          logOf exec pinned (tcl 2))⟩,
       [⟨0, true, toolChoiceAt 0 question hasDocs⟩, ⟨1, true, ToolChoice.auto⟩,
        ⟨2, true, ToolChoice.auto⟩, ⟨3, false, ToolChoice.auto⟩]) := by
  have h0 := hrounds 0 (by norm_num [MAX_ROUNDS])
  have h1 := hrounds 1 (by norm_num [MAX_ROUNDS])
  have h2 := hrounds 2 (by norm_num [MAX_ROUNDS])
  have ht : ∀ (c : Option String) (l : List ToolCall),
      isToolCallResp ⟨c, some l, "tool_calls"⟩ = true := by
    intro c l; simp [isToolCallResp]
  have echain :
      generateResponse gw exec ps question hasDocs pinned initMsgs =
        (⟨finalResp.content.getD "", [],
          (artsOf exec pinned (tcl 0) ++ artsOf exec pinned (tcl 1)) ++
            artsOf exec pinned (tcl 2),
          ps (finalResp.content.getD ""),
          some ((logOf exec pinned (tcl 0) ++ logOf exec pinned (tcl 1)) ++
            logOf exec pinned (tcl 2))⟩,
         [⟨0, true, toolChoiceAt 0 question hasDocs⟩,
          ⟨1, true, toolChoiceAt 1 question hasDocs⟩,
          ⟨2, true, toolChoiceAt 2 question hasDocs⟩,
          ⟨3, false, ToolChoice.auto⟩]) := by
    show runRounds gw exec ps pinned question hasDocs (2 + 1) 0 initMsgs [] [] [] = _
    refine (runRounds_toolstep gw exec ps pinned question hasDocs 2 0 initMsgs [] [] []
      _ h0 (ht _ _)).trans ?_
    refine (runRounds_toolstep gw exec ps pinned question hasDocs 1 1 _ _ _ _
      _ h1 (ht _ _)).trans ?_
    refine (runRounds_toolstep gw exec ps pinned question hasDocs 0 2 _ _ _ _
      _ h2 (ht _ _)).trans ?_
    exact runRounds_exhausted_ok gw exec ps pinned question hasDocs 3 _ _ _ _
      finalResp hfinal
  rw [echain]
  have ha1 : toolChoiceAt 1 question hasDocs = ToolChoice.auto := toolChoiceAt_succ 0 _ _
  have ha2 : toolChoiceAt 2 question hasDocs = ToolChoice.auto := toolChoiceAt_succ 1 _ _
  rw [ha1, ha2]

/-- A concrete tool-call batch, gateway and executor for the C2 witness. -/
def wTcl : List ToolCall := [⟨"id1", "search_documents", [("query", "q")]⟩]

def wResp : LLMResponse := ⟨none, some wTcl, "tool_calls"⟩

def wFinal : LLMResponse := ⟨some "done", none, "stop"⟩

def wGw : ℕ → Except Unit LLMResponse := fun n =>
  if n < 3 then Except.ok wResp else Except.ok wFinal

def wExec : String → List (String × String) → ToolResult := fun _ _ =>
  ⟨some "flashcards", ["artifact_type", "content"]⟩

/-- Witness for C2: three tool-call rounds, then the forced tool-less
completion whose text "done" becomes the answer. -/
theorem loop_exhaustion_witness :
    generateResponse wGw wExec (fun _ => []) "hi" false none [] =
      (⟨wFinal.content.getD "", [],
        (artsOf wExec none wTcl ++ artsOf wExec none wTcl) ++ artsOf wExec none wTcl,
        [],
        some ((logOf wExec none wTcl ++ logOf wExec none wTcl) ++
          logOf wExec none wTcl)⟩,
       [⟨0, true, toolChoiceAt 0 "hi" false⟩, ⟨1, true, ToolChoice.auto⟩,
        ⟨2, true, ToolChoice.auto⟩, ⟨3, false, ToolChoice.auto⟩]) :=
  loop_exhaustion wGw wExec (fun _ => []) "hi" false none []
    (fun _ => wTcl) (fun _ => none) wFinal
    (by
      intro n hn
      show (if n < 3 then Except.ok wResp else Except.ok wFinal) = _
      rw [if_pos (show n < 3 from hn)]
      rfl)
    rfl

end ChatEngineM

end FileGeek

namespace FileGeek

/-! ## EmbeddingsM — `services/embeddings.py`

`embed_batch` returns `[]` for empty input before any provider
resolution; otherwise the provider call (`_embed_openai` /
`_embed_gemini`, identical retry structure) slices the input into
batches and, per batch, attempts the network request up to 4 times,
sleeping `2 ** attempt` seconds after each failure, and re-raising after
the failure of attempt index 3.  The provider is an oracle
`prov batchIdx attempt ↦ some vectors | none`; the model returns the
outcome, the number of provider requests issued, and the list of sleeps
performed. -/

namespace EmbeddingsM

/-- The OpenAI path's batch ceiling (line 95; the Gemini path uses 100 —
the retry structure under verification is identical). -/
def BATCH : ℕ := 200

/-- The `range(0, len(texts), BATCH)` slicing. -/
def toBatches : List String → List (List String)
  | [] => []
  | x :: xs => ((x :: xs).take BATCH) :: toBatches ((x :: xs).drop BATCH)
termination_by l => l.length
decreasing_by simp [List.length_drop, BATCH]; omega

/-- The `for attempt in range(4)` retry loop for one batch (lines
99–117): on success, stop; on failure, sleep `2 ^ attempt` and, when
`attempt == 3`, re-raise.  Returns (outcome, provider calls, sleeps);
`fuel` is the number of loop iterations left (4 at entry). -/
def retryFrom (f : ℕ → Option α) : ℕ → ℕ → Except Unit α × ℕ × List ℕ
  | _, 0 => (.error (), 0, [])
  | attempt, fuel + 1 =>
      match f attempt with
      | some r => (.ok r, 1, [])
      | none =>
          let w := 2 ^ attempt
          if attempt = 3 then (.error (), 1, [w])
          else
            let rest := retryFrom f (attempt + 1) fuel
            (rest.1, rest.2.1 + 1, w :: rest.2.2)

def retryBatch (f : ℕ → Option α) : Except Unit α × ℕ × List ℕ :=
  retryFrom f 0 4

/-- The per-batch loop of `_embed_openai`: process the batches in order,
concatenating results; a batch's exhausted retry re-raises out of the
whole call. -/
def embedBatchAux (prov : ℕ → ℕ → Option (List (List ℚ))) :
    ℕ → List (List String) → Except Unit (List (List ℚ)) × ℕ × List ℕ
  | _, [] => (.ok [], 0, [])
  | bi, _b :: rest =>
      let r := retryBatch (prov bi)
      match r.1 with
      | .error e => (.error e, r.2.1, r.2.2)
      | .ok vecs =>
          let rr := embedBatchAux prov (bi + 1) rest
          match rr.1 with
          | .error e => (.error e, r.2.1 + rr.2.1, r.2.2 ++ rr.2.2)
          | .ok more => (.ok (vecs ++ more), r.2.1 + rr.2.1, r.2.2 ++ rr.2.2)

/-- `EmbeddingService.embed_batch` (lines 44–57): the empty-input check
precedes provider resolution, so an empty list makes zero provider
requests. -/
def embedBatch (prov : ℕ → ℕ → Option (List (List ℚ))) (texts : List String) :
    Except Unit (List (List ℚ)) × ℕ × List ℕ :=
  if texts.isEmpty then (.ok [], 0, [])
  else embedBatchAux prov 0 (toBatches texts)

/-- An always-failing provider exhausts the retry loop: 4 requests,
sleeps 1, 2, 4, 8 (between attempts, plus the final pre-raise sleep), and
the error is surfaced. -/
theorem retryFrom_all_fail (f : ℕ → Option (List (List ℚ)))
    (hfail : ∀ a, f a = none) :
    retryFrom f 0 4 = (.error (), 4, [1, 2, 4, 8]) := by
  simp [retryFrom, hfail]

/-- C9: `embed_batch` on the empty list returns the empty list without a
single provider request; on non-empty input with a provider that fails
every attempt, the call makes exactly 4 attempts on the first batch, with
a wait of `2 ^ attempt` seconds recorded after each failed attempt
(1 s, 2 s and 4 s between consecutive attempts, 8 s after the fourth),
and then fails with the error surfaced to the caller. -/
theorem embedBatch_empty_and_retry (prov : ℕ → ℕ → Option (List (List ℚ)))
    (texts : List String) (hne : texts ≠ [])
    (hfail : ∀ a, prov 0 a = none) :
    embedBatch prov [] = (.ok [], 0, []) ∧
    embedBatch prov texts = (.error (), 4, [1, 2, 4, 8]) := by
  refine ⟨rfl, ?_⟩
  cases texts with
  | nil => exact absurd rfl hne
  | cons x xs =>
      have hr : retryBatch (prov 0) = (Except.error (), 4, [1, 2, 4, 8]) :=
        retryFrom_all_fail (prov 0) hfail
      show embedBatchAux prov 0 (toBatches (x :: xs)) = _
      rw [toBatches]
      simp only [embedBatchAux, hr]

/-- Witness for C9 with one text and a provider that always fails. -/
theorem embedBatch_empty_and_retry_witness :
    embedBatch (fun _ _ => none) [] = (.ok [], 0, []) ∧
    embedBatch (fun _ _ => none) ["t"] = (.error (), 4, [1, 2, 4, 8]) :=
  embedBatch_empty_and_retry (fun _ _ => none) ["t"]
    (by simp) (fun _ => rfl)

end EmbeddingsM

end FileGeek
